import Mathlib

/-!
Verification of the concurrent batch-processing engine of the
DatasetDownloader repository.  The definitions below are a shallow
embedding of the relevant parts of `downloader.js` and
`extract-only.js`: the batch runner loop, the per-item retry
recursion, the resume (skip-if-complete) check of the download
operation, archive discovery, the post-extraction directory walk,
and the run summary computation.
-/

/-- Result object of one per-item operation, mirroring the objects returned
by `downloadFile` (`{success:true, fileName, ..., bytes?}` /
`{success:true, ..., skipped:true}` / `{success:false, error, url}`) in
`downloader.js`.  `sizeBytes = none` models an absent `bytes` field (the
skipped case), `fileCount` the extraction pipeline's `extractedFiles`. -/
inductive Outcome where
  | success (identifier : String) (sizeBytes : Option Nat) (fileCount : Option Nat) (skipped : Bool)
  | failure (identifier : String) (errorMessage : String)
deriving DecidableEq, Repr

/-- The batch-slicing loop shared by `FileDownloader.downloadAll`
(`downloader.js:190-194`) and `ArchiveExtractor.extractAll`
(`extract-only.js:197-205`):
`for (let i = 0; i < items.length; i += batchSize) { batch = items.slice(i, i + batchSize); ... }`.
For `batchSize = 0` the JS loop does not terminate; every claim assumes a
positive batch size, and we return `[]` in that unreachable case. -/
def chunkList {α : Type} : List α → Nat → List (List α)
  | _, 0 => []
  | [], _ + 1 => []
  | x :: xs, b + 1 => ((x :: xs).take (b + 1)) :: chunkList ((x :: xs).drop (b + 1)) (b + 1)
termination_by l _ => l.length
decreasing_by
  simp only [List.drop_succ_cons, List.length_drop, List.length_cons]
  omega

/-- The batch runner of `downloadAll` / `extractAll`: run the per-item
operation over every batch (`batch.map(op)`, i.e. `Promise.all` of the
per-item promises, which preserves positional order) and push each batch's
results onto the accumulated result list (`results.push(...batchResults)`). -/
def runBatches {α β : Type} (items : List α) (batchSize : Nat) (op : α → β) : List β :=
  (chunkList items batchSize).foldl (fun results batch => results ++ batch.map op) []

theorem foldl_append_eq {α β : Type} (L : List α) (f : α → List β) (init : List β) :
    L.foldl (fun acc x => acc ++ f x) init = init ++ (L.map f).flatten := by
  induction L generalizing init with
  | nil => simp
  | cons a l ih => simp [ih, List.append_assoc]

theorem chunkList_nil {α : Type} (b : Nat) : chunkList ([] : List α) b = [] := by
  cases b <;> simp [chunkList]

theorem chunkList_cons {α : Type} (x : α) (xs : List α) (b : Nat) :
    chunkList (x :: xs) (b + 1) =
      ((x :: xs).take (b + 1)) :: chunkList ((x :: xs).drop (b + 1)) (b + 1) := by
  simp [chunkList]

theorem chunkList_flatten {α : Type} (b : Nat) (hb : 0 < b) :
    ∀ (l : List α), (chunkList l b).flatten = l := by
  have hmain : ∀ (n : Nat) (l : List α), l.length ≤ n → (chunkList l b).flatten = l := by
    intro n
    induction n with
    | zero =>
      intro l hl
      have : l = [] := List.length_eq_zero.mp (Nat.le_zero.mp hl)
      subst this
      simp [chunkList_nil]
    | succ n ih =>
      intro l hl
      match l with
      | [] => simp [chunkList_nil]
      | x :: xs =>
        obtain ⟨b', rfl⟩ : ∃ b', b = b' + 1 := ⟨b - 1, by omega⟩
        simp only [List.length_cons] at hl
        rw [chunkList_cons]
        simp only [List.flatten_cons]
        rw [ih ((x :: xs).drop (b' + 1))
          (by simp only [List.length_drop, List.length_cons]; omega)]
        exact List.take_append_drop _ _
  intro l
  exact hmain l.length l le_rfl

theorem runBatches_eq_map {α β : Type} (W : List α) (B : Nat) (op : α → β) (hB : 0 < B) :
    runBatches W B op = W.map op := by
  unfold runBatches
  rw [foldl_append_eq, List.nil_append, ← List.map_flatten, chunkList_flatten B hB]

/-- C1: for every worklist and positive batch size, the batch runner
produces exactly one outcome per work item, the outcome list has the
length of the worklist, and the outcome at every position `i` is the
outcome of processing item `i` (concatenation of per-batch results in
original input order). -/
theorem batch_run_positional {α β : Type} (W : List α) (B : Nat) (op : α → β) (hB : 0 < B) :
    (runBatches W B op).length = W.length ∧
    ∀ i : Nat, (runBatches W B op)[i]? = (W[i]?).map op := by
  rw [runBatches_eq_map W B op hB]
  constructor
  · exact List.length_map W op
  · intro i
    simp

/-- Instantiation of the positional-identity theorem on a concrete
worklist of three items with batch size two. -/
theorem batch_run_positional_witness :
    (runBatches ["u1", "u2", "u3"] 2 (fun s => Outcome.failure s "boom")).length = 3 :=
  (batch_run_positional ["u1", "u2", "u3"] 2 (fun s => Outcome.failure s "boom") (by decide)).1

theorem chunkList_eq_nil_iff {α : Type} (b' : Nat) (l : List α) :
    chunkList l (b' + 1) = [] ↔ l = [] := by
  cases l with
  | nil => simp [chunkList_nil]
  | cons x xs => rw [chunkList_cons]; simp

theorem chunkList_mem_bound {α : Type} (b : Nat) (hb : 0 < b) :
    ∀ (l : List α), ∀ c ∈ chunkList l b, c.length ≤ b ∧ c ≠ [] := by
  have hmain : ∀ (n : Nat) (l : List α), l.length ≤ n →
      ∀ c ∈ chunkList l b, c.length ≤ b ∧ c ≠ [] := by
    intro n
    induction n with
    | zero =>
      intro l hl
      have : l = [] := List.length_eq_zero.mp (Nat.le_zero.mp hl)
      subst this
      simp [chunkList_nil]
    | succ n ih =>
      intro l hl
      match l with
      | [] => simp [chunkList_nil]
      | x :: xs =>
        obtain ⟨b', rfl⟩ : ∃ b', b = b' + 1 := ⟨b - 1, by omega⟩
        simp only [List.length_cons] at hl
        rw [chunkList_cons]
        intro c hc
        rcases List.mem_cons.mp hc with h | h
        · subst h
          constructor
          · simp only [List.length_take, List.length_cons]
            omega
          · simp [List.take_succ_cons]
        · exact ih ((x :: xs).drop (b' + 1))
            (by simp only [List.length_drop, List.length_cons]; omega) c h
  intro l
  exact hmain l.length l le_rfl

theorem chunkList_getD_length {α : Type} (b : Nat) (hb : 0 < b) :
    ∀ (l : List α) (i : Nat), i + 1 < (chunkList l b).length →
      ((chunkList l b).getD i []).length = b := by
  have hmain : ∀ (n : Nat) (l : List α), l.length ≤ n → ∀ i : Nat,
      i + 1 < (chunkList l b).length → ((chunkList l b).getD i []).length = b := by
    intro n
    induction n with
    | zero =>
      intro l hl
      have : l = [] := List.length_eq_zero.mp (Nat.le_zero.mp hl)
      subst this
      simp [chunkList_nil]
    | succ n ih =>
      intro l hl i hi
      match l with
      | [] => simp [chunkList_nil] at hi
      | x :: xs =>
        obtain ⟨b', rfl⟩ : ∃ b', b = b' + 1 := ⟨b - 1, by omega⟩
        simp only [List.length_cons] at hl
        rw [chunkList_cons] at hi ⊢
        match i with
        | 0 =>
          simp only [List.length_cons] at hi
          have hrest : chunkList ((x :: xs).drop (b' + 1)) (b' + 1) ≠ [] := by
            intro h
            rw [h] at hi
            simp at hi
          have hdrop : (x :: xs).drop (b' + 1) ≠ [] :=
            fun h => hrest (by rw [h]; exact chunkList_nil _)
          have hlen : b' + 1 < (x :: xs).length := by
            by_contra h
            exact hdrop (List.drop_eq_nil_of_le (by omega))
          simp only [List.getD_cons_zero, List.length_take]
          omega
        | j + 1 =>
          simp only [List.getD_cons_succ]
          simp only [List.length_cons] at hi
          exact ih ((x :: xs).drop (b' + 1))
            (by simp only [List.length_drop, List.length_cons]; omega) j (by omega)
  intro l
  exact hmain l.length l le_rfl

theorem chunkList_length_eq {α : Type} (b : Nat) (hb : 0 < b) :
    ∀ (l : List α), (chunkList l b).length = (l.length + b - 1) / b := by
  have hmain : ∀ (n : Nat) (l : List α), l.length ≤ n →
      (chunkList l b).length = (l.length + b - 1) / b := by
    intro n
    induction n with
    | zero =>
      intro l hl
      have : l = [] := List.length_eq_zero.mp (Nat.le_zero.mp hl)
      subst this
      simp only [chunkList_nil, List.length_nil, Nat.zero_add]
      rw [Nat.div_eq_of_lt (by omega)]
    | succ n ih =>
      intro l hl
      match l with
      | [] =>
        simp only [chunkList_nil, List.length_nil, Nat.zero_add]
        rw [Nat.div_eq_of_lt (by omega)]
      | x :: xs =>
        obtain ⟨b', rfl⟩ : ∃ b', b = b' + 1 := ⟨b - 1, by omega⟩
        simp only [List.length_cons] at hl
        rw [chunkList_cons]
        simp only [List.length_cons]
        rw [ih ((x :: xs).drop (b' + 1))
          (by simp only [List.length_drop, List.length_cons]; omega)]
        simp only [List.length_drop, List.length_cons]
        have hsplit : xs.length + 1 + (b' + 1) - 1 = (xs.length + 1 - 1) + (b' + 1) := by
          omega
        rw [hsplit, Nat.add_div_right _ (Nat.succ_pos b')]
        rcases le_or_lt (xs.length + 1) (b' + 1) with h | h
        · have h1 : xs.length + 1 - (b' + 1) + (b' + 1) - 1 = b' := by omega
          have h2 : xs.length + 1 - 1 = xs.length := by omega
          rw [h1, h2, Nat.div_eq_of_lt (by omega), Nat.div_eq_of_lt (by omega)]
        · have h1 : xs.length + 1 - (b' + 1) + (b' + 1) - 1 = xs.length + 1 - 1 := by omega
          rw [h1]
  intro l
  exact hmain l.length l le_rfl

/-- C5: for every worklist `W` and positive batch size `B`, the slicing
loop partitions `W` into contiguous batches covering `W` exactly once in
order, every batch is nonempty of size at most `B`, every batch except
possibly the last has size exactly `B`, and the number of batches equals
the ceiling of `W.length / B`. -/
theorem batch_partition {α : Type} (W : List α) (B : Nat) (hB : 0 < B) :
    (chunkList W B).flatten = W ∧
    (∀ c ∈ chunkList W B, c.length ≤ B ∧ c ≠ []) ∧
    (∀ i : Nat, i + 1 < (chunkList W B).length → ((chunkList W B).getD i []).length = B) ∧
    (chunkList W B).length = (W.length + B - 1) / B :=
  ⟨chunkList_flatten B hB W, chunkList_mem_bound B hB W,
   chunkList_getD_length B hB W, chunkList_length_eq B hB W⟩

/-- Instantiation of the partition theorem: five items in batches of
three give a batch count of two, the ceiling of five thirds. -/
theorem batch_partition_witness :
    (chunkList [10, 20, 30, 40, 50] 3).length = ([10, 20, 30, 40, 50].length + 3 - 1) / 3 :=
  (batch_partition [10, 20, 30, 40, 50] 3 (by decide)).2.2.2

/-- Result of one retried per-item operation: `downloadFile` resolves to
`{success:true, ...}` carrying a payload, or to
`{success:false, error: error.message, url}` after the last attempt;
`extractTgzFile` is identical with `sourceFilePath` as identifier. -/
inductive RetryOutcome (σ : Type) where
  | success (s : σ)
  | failure (identifier : String) (errorMessage : String)
deriving DecidableEq, Repr

/-- The retry skeleton shared by `FileDownloader.downloadFile`
(`downloader.js:157-167`) and `ArchiveExtractor.extractTgzFile`
(`extract-only.js:125-135`): `attemptResult n` is the outcome of the body
of attempt number `n`; on an error, if `attempt < retryAttempts` the
operation waits `retryDelay` and recurses with `attempt + 1`, otherwise it
returns the failure object with the identifier and the error message. -/
def retryRun {σ : Type} (retryAttempts : Nat) (ident : String)
    (attemptResult : Nat → Except String σ) (attempt : Nat) : RetryOutcome σ :=
  match attemptResult attempt with
  | .ok s => .success s
  | .error e =>
    if attempt < retryAttempts then retryRun retryAttempts ident attemptResult (attempt + 1)
    else .failure ident e
termination_by retryAttempts + 1 - attempt
decreasing_by omega

/-- Number of attempt bodies executed by `retryRun` starting at `attempt`. -/
def attemptsMade {σ : Type} (retryAttempts : Nat)
    (attemptResult : Nat → Except String σ) (attempt : Nat) : Nat :=
  match attemptResult attempt with
  | .ok _ => 1
  | .error _ =>
    if attempt < retryAttempts then 1 + attemptsMade retryAttempts attemptResult (attempt + 1)
    else 1
termination_by retryAttempts + 1 - attempt
decreasing_by omega

/-- Total waiting time accumulated by `retryRun` starting at `attempt`:
one `retryDelay` before every retried attempt (`await this.delay(this.retryDelay)`). -/
def totalDelay {σ : Type} (retryAttempts retryDelay : Nat)
    (attemptResult : Nat → Except String σ) (attempt : Nat) : Nat :=
  match attemptResult attempt with
  | .ok _ => 0
  | .error _ =>
    if attempt < retryAttempts then
      retryDelay + totalDelay retryAttempts retryDelay attemptResult (attempt + 1)
    else 0
termination_by retryAttempts + 1 - attempt
decreasing_by omega

theorem retry_allfail_aux {σ : Type} (R d : Nat) (ident : String)
    (f : Nat → Except String σ) (hf : ∀ n, 1 ≤ n → ∃ e, f n = Except.error e) :
    ∀ m a, R - a = m → 1 ≤ a → a ≤ R →
      attemptsMade R f a = R + 1 - a ∧
      (∀ e, f R = Except.error e → retryRun R ident f a = RetryOutcome.failure ident e) ∧
      totalDelay R d f a = d * (R - a) := by
  intro m
  induction m with
  | zero =>
    intro a hm ha1 haR
    have haR' : a = R := by omega
    subst haR'
    obtain ⟨e, he⟩ := hf a ha1
    refine ⟨?_, ?_, ?_⟩
    · rw [attemptsMade, he]
      simp
    · intro e' he'
      rw [he] at he'
      cases he'
      rw [retryRun, he]
      simp
    · rw [totalDelay, he]
      simp
  | succ m ih =>
    intro a hm ha1 haR
    have haR' : a < R := by omega
    obtain ⟨e, he⟩ := hf a ha1
    obtain ⟨ih1, ih2, ih3⟩ := ih (a + 1) (by omega) (by omega) (by omega)
    refine ⟨?_, ?_, ?_⟩
    · rw [attemptsMade, he]
      simp only [haR', if_pos]
      rw [ih1]
      omega
    · intro e' he'
      rw [retryRun, he]
      simp only [haR', if_pos]
      exact ih2 e' he'
    · rw [totalDelay, he]
      simp only [haR', if_pos]
      rw [ih3]
      have : R - a = (R - (a + 1)) + 1 := by omega
      rw [this, Nat.mul_add, Nat.mul_one]
      omega

theorem retry_success_aux {σ : Type} (R d : Nat) (ident : String)
    (f : Nat → Except String σ) (k : Nat) (s : σ) (hk : k < R)
    (hfail : ∀ n, 1 ≤ n → n ≤ k → ∃ e, f n = Except.error e)
    (hok : f (k + 1) = Except.ok s) :
    ∀ m a, k + 1 - a = m → 1 ≤ a → a ≤ k + 1 →
      retryRun R ident f a = RetryOutcome.success s ∧
      attemptsMade R f a = k + 2 - a ∧
      totalDelay R d f a = d * (k + 1 - a) := by
  intro m
  induction m with
  | zero =>
    intro a hm ha1 hak
    have ha : a = k + 1 := by omega
    subst ha
    refine ⟨?_, ?_, ?_⟩
    · rw [retryRun, hok]
    · rw [attemptsMade, hok]
      show 1 = k + 2 - (k + 1)
      omega
    · rw [totalDelay, hok]
      simp
  | succ m ih =>
    intro a hm ha1 hak
    have hak' : a ≤ k := by omega
    obtain ⟨e, he⟩ := hfail a ha1 hak'
    have haR : a < R := by omega
    obtain ⟨ih1, ih2, ih3⟩ := ih (a + 1) (by omega) (by omega) (by omega)
    refine ⟨?_, ?_, ?_⟩
    · rw [retryRun, he]
      simp only [haR, if_pos]
      exact ih1
    · rw [attemptsMade, he]
      simp only [haR, if_pos]
      omega
    · rw [totalDelay, he]
      simp only [haR, if_pos]
      rw [ih3]
      have : k + 1 - a = (k + 1 - (a + 1)) + 1 := by omega
      rw [this, Nat.mul_add, Nat.mul_one]
      omega

/-- C2: starting at attempt 1 with a configured `retryAttempts ≥ 1` (the
`parseInt(...) || 3` configuration never yields 0): if every attempt body
fails then exactly `retryAttempts` attempts are executed and the result
is the failure object carrying the identifier and the last error message,
with `retryDelay` waited between consecutive attempts; if the first `k`
attempts fail with `k < retryAttempts` and attempt `k + 1` succeeds, the
result is the success object, exactly `k + 1` attempts are executed, and
`k` delays of `retryDelay` are waited. -/
theorem retry_policy {σ : Type} (R d : Nat) (ident : String)
    (f : Nat → Except String σ) (hR : 1 ≤ R) :
    ((∀ n, 1 ≤ n → ∃ e, f n = Except.error e) →
       ∃ e, f R = Except.error e ∧ retryRun R ident f 1 = RetryOutcome.failure ident e ∧
         attemptsMade R f 1 = R ∧ totalDelay R d f 1 = d * (R - 1)) ∧
    (∀ k s, k < R → (∀ n, 1 ≤ n → n ≤ k → ∃ e, f n = Except.error e) →
       f (k + 1) = Except.ok s →
         retryRun R ident f 1 = RetryOutcome.success s ∧
         attemptsMade R f 1 = k + 1 ∧ totalDelay R d f 1 = d * k) := by
  constructor
  · intro hf
    obtain ⟨e, he⟩ := hf R hR
    obtain ⟨h1, h2, h3⟩ := retry_allfail_aux R d ident f hf (R - 1) 1 (by omega) le_rfl hR
    exact ⟨e, he, h2 e he, by omega, h3⟩
  · intro k s hk hfail hok
    obtain ⟨h1, h2, h3⟩ :=
      retry_success_aux R d ident f k s hk hfail hok k 1 (by omega) le_rfl (by omega)
    refine ⟨h1, by omega, ?_⟩
    rw [h3, Nat.add_sub_cancel]

/-- Oracle for the retry witness: attempts 1 and 2 fail, attempt 3 succeeds. -/
def retryWitnessOracle : Nat → Except String Nat :=
  fun n => if n ≤ 2 then Except.error "boom" else Except.ok 42

/-- Instantiation of the retry-policy theorem: with `retryAttempts = 3`
and an operation failing twice then succeeding, the run succeeds after
exactly three attempts and two waits of the retry delay. -/
theorem retry_policy_witness :
    retryRun 3 "u" retryWitnessOracle 1 = RetryOutcome.success 42 ∧
    attemptsMade 3 retryWitnessOracle 1 = 2 + 1 ∧
    totalDelay 3 5 retryWitnessOracle 1 = 5 * 2 :=
  (retry_policy 3 5 "u" retryWitnessOracle (by decide)).2 2 42 (by decide)
    (fun n h1 h2 => ⟨"boom", by simp [retryWitnessOracle, h2]⟩) rfl

/-- Oracle for the failure-containment witness: every attempt of every
item fails with a network error. -/
def alwaysDownOracle : String → Nat → Except String Nat :=
  fun _ _ => Except.error "down"

/-- C4: per-item errors are captured as data.  Running the batch runner
over a worklist with the retried per-item operation (which, after
exhausting its retries, returns a failure object instead of throwing),
an item whose every attempt fails still yields a `Failure` outcome at its
own position, while the outcome list stays complete: it has the length of
the worklist and every other position carries that item's own outcome. -/
theorem failures_contained (W : List String) (B R : Nat)
    (f : String → Nat → Except String Nat) (i : Nat) (hB : 0 < B) (hR : 1 ≤ R)
    (hi : i < W.length)
    (hfail : ∀ n, 1 ≤ n → ∃ e, f (W.getD i "") n = Except.error e) :
    (runBatches W B (fun w => retryRun R w (f w) 1)).length = W.length ∧
    (∀ j : Nat, (runBatches W B (fun w => retryRun R w (f w) 1))[j]? =
       (W[j]?).map (fun w => retryRun R w (f w) 1)) ∧
    ∃ e, (runBatches W B (fun w => retryRun R w (f w) 1))[i]? =
       some (RetryOutcome.failure (W.getD i "") e) := by
  obtain ⟨hlen, hpos⟩ := batch_run_positional W B (fun w => retryRun R w (f w) 1) hB
  refine ⟨hlen, hpos, ?_⟩
  obtain ⟨e, he, hfailrun, _, _⟩ := (retry_policy R 0 (W.getD i "") (f (W.getD i "")) hR).1 hfail
  refine ⟨e, ?_⟩
  have hgetD : W.getD i "" = W[i] := List.getD_eq_getElem W "" hi
  rw [hpos i, List.getElem?_eq_getElem hi, ← hgetD]
  show some (retryRun R (W.getD i "") (f (W.getD i "")) 1) =
    some (RetryOutcome.failure (W.getD i "") e)
  rw [hfailrun]

/-- Instantiation of the failure-containment theorem: two items, batch
size one, both attempts of item 0 failing, still a two-element outcome
list. -/
theorem failures_contained_witness :
    (runBatches ["u1", "u2"] 1 (fun w => retryRun 2 w (alwaysDownOracle w) 1)).length = 2 :=
  (failures_contained ["u1", "u2"] 1 2 alwaysDownOracle 0 (by decide) (by decide) (by decide)
    (fun n _ => ⟨"down", rfl⟩)).1

/-- Tag test mirroring `result.success` truthiness. -/
def isSuccess : Outcome → Bool
  | .success _ _ _ _ => true
  | .failure _ _ => false

/-- Identifier of an outcome (`fileName` / resolved `url` or `sourceFilePath`). -/
def identOf : Outcome → String
  | .success ident _ _ _ => ident
  | .failure ident _ => ident

/-- Error message of a failure outcome (`result.error`). -/
def errOf : Outcome → String
  | .success _ _ _ _ => ""
  | .failure _ e => e

/-- JavaScript truthiness of `r.bytes`: present and nonzero. -/
def bytesTruthy : Outcome → Bool
  | .success _ (some (_ + 1)) _ _ => true
  | _ => false

/-- The byte size carried by an outcome, `0` when the field is absent. -/
def bytesVal : Outcome → Nat
  | .success _ (some b) _ _ => b
  | _ => 0

/-- The run summary assembled at the end of `downloadAll`
(`downloader.js:196-235`): the counters incremented once per outcome, the
failed results collected by `results.filter(r => !r.success)` in order,
and `totalBytes` computed by
`results.filter(r => r.success && r.bytes).reduce((sum, r) => sum + r.bytes, 0)`. -/
structure RunSummary where
  total : Nat
  succeeded : Nat
  failed : Nat
  totalBytes : Nat
  failures : List (String × String)
deriving DecidableEq, Repr

def summarize (outcomes : List Outcome) : RunSummary where
  total := outcomes.length
  succeeded := (outcomes.filter isSuccess).length
  failed := (outcomes.filter (fun o => !isSuccess o)).length
  totalBytes :=
    (outcomes.filter (fun o => isSuccess o && bytesTruthy o)).foldl
      (fun sum r => sum + bytesVal r) 0
  failures := (outcomes.filter (fun o => !isSuccess o)).map (fun o => (identOf o, errOf o))

theorem filter_length_split (l : List Outcome) :
    (l.filter isSuccess).length + (l.filter (fun o => !isSuccess o)).length = l.length := by
  induction l with
  | nil => simp
  | cons o t ih =>
    cases ho : isSuccess o <;> simp [List.filter_cons, ho, ← ih] <;> omega

theorem foldl_add_eq_sum (l : List Outcome) (g : Outcome → Nat) (init : Nat) :
    l.foldl (fun sum r => sum + g r) init = init + (l.map g).sum := by
  induction l generalizing init with
  | nil => simp
  | cons o t ih => simp [ih, Nat.add_assoc]

theorem bytesVal_zero_of_not_truthy (o : Outcome) (h : bytesTruthy o = false) :
    bytesVal o = 0 := by
  match o with
  | .failure _ _ => rfl
  | .success ident b fc sk =>
    match b with
    | none => rfl
    | some 0 => rfl
    | some (n + 1) => simp [bytesTruthy] at h

theorem truthy_filter_sum (l : List Outcome) :
    ((l.filter (fun o => isSuccess o && bytesTruthy o)).map bytesVal).sum =
      ((l.filter isSuccess).map bytesVal).sum := by
  induction l with
  | nil => rfl
  | cons o t ih =>
    cases hs : isSuccess o
    · simp [List.filter_cons, hs, ih]
    · cases hb : bytesTruthy o
      · simp [List.filter_cons, hs, hb, ih, bytesVal_zero_of_not_truthy o hb]
      · simp [List.filter_cons, hs, hb, ih]

/-- C6: for every run over a worklist with a positive batch size, the
summary satisfies `succeeded + failed = total` with `total` the worklist
length, `totalBytes` is the sum of the byte sizes over the `Success`
outcomes only, and the failure list collects identifier and error message
of every failure outcome in their original order. -/
theorem summary_arithmetic (W : List String) (B : Nat) (op : String → Outcome) (hB : 0 < B) :
    (summarize (runBatches W B op)).total = W.length ∧
    (summarize (runBatches W B op)).succeeded + (summarize (runBatches W B op)).failed =
      W.length ∧
    (summarize (runBatches W B op)).totalBytes =
      (((runBatches W B op).filter isSuccess).map bytesVal).sum ∧
    (summarize (runBatches W B op)).failures =
      ((runBatches W B op).filter (fun o => !isSuccess o)).map (fun o => (identOf o, errOf o)) := by
  have hlen : (runBatches W B op).length = W.length :=
    (batch_run_positional W B op hB).1
  refine ⟨hlen, ?_, ?_, rfl⟩
  · rw [summarize]
    simp only
    rw [filter_length_split, hlen]
  · rw [summarize]
    simp only
    rw [foldl_add_eq_sum, Nat.zero_add, truthy_filter_sum]

/-- Instantiation of the summary theorem on a three-item run mixing a
success with bytes, a skipped success without bytes, and a failure. -/
theorem summary_arithmetic_witness :
    (summarize (runBatches ["a", "b", "c"] 2
       (fun s => if s = "a" then Outcome.success s (some 10) none false
                 else if s = "b" then Outcome.success s none none true
                 else Outcome.failure s "x"))).succeeded +
    (summarize (runBatches ["a", "b", "c"] 2
       (fun s => if s = "a" then Outcome.success s (some 10) none false
                 else if s = "b" then Outcome.success s none none true
                 else Outcome.failure s "x"))).failed = 3 :=
  (summary_arithmetic ["a", "b", "c"] 2
    (fun s => if s = "a" then Outcome.success s (some 10) none false
              else if s = "b" then Outcome.success s none none true
              else Outcome.failure s "x") (by decide)).2.1

/-- Environment of one attempt of `FileDownloader.downloadFile`
(`downloader.js:103-155`): `probe = none` models a failed HEAD request,
`probe = some cl` a successful HEAD whose content-length header parsed to
`cl` via `parseInt(...) || 0` (so `cl = 0` when the header is absent or
not a positive integer); `existingSize` is the byte length of the file at
the derived destination path, `none` when no such file exists;
`getResult` is the outcome of the streamed GET plus write. -/
structure DownloadWorld where
  probe : Option Nat
  existingSize : Option Nat
  getResult : Except String Nat
deriving Repr

/-- Result of one `downloadFile` attempt body: the skip return
`{success:true, ..., skipped:true}`, the full-transfer return
`{success:true, ..., bytes}`, or a raised error (caught by the retry
wrapper). -/
inductive DownloadAttemptResult where
  | skipped
  | downloaded (bytes : Nat)
  | errored (msg : String)
deriving DecidableEq, Repr

/-- One attempt body of `downloadFile`: HEAD probe, then the
existence-and-size check of `downloader.js:112-123`
(`if (contentLength > 0 && stats.size === contentLength)` return skipped,
`else` fall through to the GET), then the streamed GET. -/
def downloadAttempt (w : DownloadWorld) : DownloadAttemptResult :=
  match w.probe with
  | none => .errored "head request failed"
  | some contentLength =>
    match w.existingSize with
    | some size =>
      if 0 < contentLength ∧ size = contentLength then .skipped
      else
        match w.getResult with
        | .ok bytes => .downloaded bytes
        | .error e => .errored e
    | none =>
      match w.getResult with
      | .ok bytes => .downloaded bytes
      | .error e => .errored e

/-- Number of GET requests issued during one `downloadFile` attempt body:
zero when the HEAD fails (control never reaches the GET) or when the
skip branch is taken, one otherwise (the `axios({method:'GET', ...})`
call at `downloader.js:126`, issued before any transfer error can occur). -/
def getRequests (w : DownloadWorld) : Nat :=
  match w.probe with
  | none => 0
  | some contentLength =>
    match w.existingSize with
    | some size => if 0 < contentLength ∧ size = contentLength then 0 else 1
    | none => 1

/-- C3: a `downloadFile` attempt returns the skipped success and issues
no GET request exactly when the probe succeeded, a file exists at the
derived destination, the probed content length is positive, and the
existing file's byte length equals it; and whenever the file exists but
the lengths differ or the probe yielded no positive length, a GET is
issued (the file is re-downloaded, overwriting the destination path). -/
theorem download_skip_check (w : DownloadWorld) :
    (downloadAttempt w = DownloadAttemptResult.skipped ∧ getRequests w = 0 ↔
      ∃ cl sz, w.probe = some cl ∧ w.existingSize = some sz ∧ 0 < cl ∧ sz = cl) ∧
    (∀ cl sz, w.probe = some cl → w.existingSize = some sz → ¬(0 < cl ∧ sz = cl) →
      getRequests w = 1) := by
  rcases w with ⟨p, ex, g⟩
  rcases p with _ | cl
  · constructor
    · constructor
      · intro h
        rcases g with e | b <;> simp [downloadAttempt] at h
      · rintro ⟨cl, sz, h, -⟩
        cases h
    · intro cl sz h
      cases h
  · rcases ex with _ | sz
    · constructor
      · constructor
        · intro h
          rcases g with e | b <;> simp [downloadAttempt] at h
        · rintro ⟨cl', sz, -, h, -⟩
          cases h
      · intro cl' sz _ h
        cases h
    · by_cases hc : 0 < cl ∧ sz = cl
      · constructor
        · constructor
          · intro _
            exact ⟨cl, sz, rfl, rfl, hc⟩
          · intro _
            exact ⟨by simp [downloadAttempt, hc], by simp [getRequests, hc]⟩
        · intro cl' sz' h1 h2 hnc
          cases h1
          cases h2
          exact absurd hc hnc
      · constructor
        · constructor
          · intro h
            rcases g with e | b <;> simp [downloadAttempt, hc] at h
          · rintro ⟨cl', sz', h1, h2, h3⟩
            cases h1
            cases h2
            exact absurd h3 hc
        · intro cl' sz' h1 h2 _
          cases h1
          cases h2
          simp [getRequests, hc]

/-- Instantiation of the skip-check theorem: an existing five-byte file
with a probed content length of five is skipped with zero GET requests. -/
theorem download_skip_check_witness :
    downloadAttempt ⟨some 5, some 5, Except.error "e"⟩ = DownloadAttemptResult.skipped ∧
    getRequests ⟨some 5, some 5, Except.error "e"⟩ = 0 :=
  (download_skip_check ⟨some 5, some 5, Except.error "e"⟩).1.mpr
    ⟨5, 5, rfl, rfl, by decide, rfl⟩

/-- Split a character list at its last dot: `some (pre, suf)` with the
list equal to `pre ++ dot :: suf` and `suf` dot-free, `none` when no dot
occurs. -/
def splitLastDot : List Char → Option (List Char × List Char)
  | [] => none
  | c :: rest =>
    match splitLastDot rest with
    | some (p, s) => some (c :: p, s)
    | none => if c = '.' then some ([], rest) else none

/-- Node's `path.extname` on a base filename: the substring from the last
dot to the end, empty when there is no dot or when the only dot leads the
name (dotfiles such as `.gitignore` have no extension). -/
def extnameChars (cs : List Char) : List Char :=
  match splitLastDot cs with
  | some ([], _) => []
  | some (_ :: _, s) => '.' :: s
  | none => []

def extname (s : String) : String := String.mk (extnameChars s.data)

/-- Node's `path.parse(name).name` on a base filename: the filename with
`path.extname` stripped from the end.  Used by `extractAll`
(`extract-only.js:200`) to derive the destination subdirectory of an
archive. -/
def parseName (s : String) : String :=
  String.mk (s.data.take (s.data.length - (extnameChars s.data).length))

/-- JavaScript `String.prototype.toLowerCase` (ASCII case folding). -/
def toLowerStr (s : String) : String := String.mk (s.data.map Char.toLower)

/-- JavaScript `String.prototype.endsWith`. -/
def endsWithStr (s pat : String) : Bool := List.isSuffixOf pat.data s.data

/-- `ArchiveExtractor.isSupportedArchive` (`extract-only.js:53-56`):
`['.tgz', '.tar.gz', '.tar', '.gz'].includes(path.extname(filename).toLowerCase()) || filename.endsWith('.tar.gz')`. -/
def isSupportedArchive (filename : String) : Bool :=
  (toLowerStr (extname filename) == ".tgz" || toLowerStr (extname filename) == ".tar.gz" ||
   toLowerStr (extname filename) == ".tar" || toLowerStr (extname filename) == ".gz") ||
  endsWithStr filename ".tar.gz"

/-- One entry of the source directory as seen by `fs.readdir` + `fs.stat`. -/
structure DirEntry where
  name : String
  isFile : Bool
  size : Nat
deriving DecidableEq, Repr

/-- The source directory of the extraction pipeline: whether it exists
(`fs.pathExists`) and its listing. -/
structure SourceDir where
  dirExists : Bool
  entries : List DirEntry
deriving DecidableEq, Repr

/-- An archive record `{path, name, size}` pushed by `findArchiveFiles`
(the `path` field is derived from the name by prefixing the source
directory and is omitted here). -/
structure ArchiveFile where
  name : String
  size : Nat
deriving DecidableEq, Repr

/-- `ArchiveExtractor.findArchiveFiles` (`extract-only.js:138-179`): throw
when the source directory does not exist, otherwise keep exactly the
regular files accepted by `isSupportedArchive`, in listing order. -/
def findArchiveFiles (src : SourceDir) : Except String (List ArchiveFile) :=
  if src.dirExists then
    Except.ok (src.entries.filterMap fun e =>
      if e.isFile && isSupportedArchive e.name then some ⟨e.name, e.size⟩ else none)
  else Except.error "Source directory does not exist"

/-- The destination subdirectory derived for an archive at
`extract-only.js:200`:
`path.join(this.destinationDirectory, path.parse(archive.name).name)`. -/
def destSubdir (destRoot archiveName : String) : String :=
  destRoot ++ "/" ++ parseName archiveName

/-- `ArchiveExtractor.extractAll` (`extract-only.js:181-260`): discovery,
the empty-worklist early return, then the batch runner over the archive
files with the per-archive destination subdirectory; a discovery error is
re-thrown past the batch runner (`catch ... throw error`). -/
def extractAll (src : SourceDir) (destRoot : String) (batchSize : Nat)
    (op : ArchiveFile → String → Outcome) : Except String (List Outcome) :=
  match findArchiveFiles src with
  | .error e => .error e
  | .ok archiveFiles =>
    if archiveFiles.length = 0 then .ok []
    else .ok (runBatches archiveFiles batchSize
      (fun archive => op archive (destSubdir destRoot archive.name)))

/-- C7: when the configured source directory does not exist, the
extraction pipeline raises the structural failure past the batch runner —
`extractAll` propagates the thrown error instead of returning any
per-item outcome list, and no batch executes. -/
theorem structural_failure (src : SourceDir) (destRoot : String) (B : Nat)
    (op : ArchiveFile → String → Outcome) (h : src.dirExists = false) :
    extractAll src destRoot B op = Except.error "Source directory does not exist" := by
  rw [extractAll, findArchiveFiles, h]
  rfl

/-- Instantiation of the structural-failure theorem on a nonexistent
source directory. -/
theorem structural_failure_witness :
    extractAll ⟨false, []⟩ "/mnt/dest" 2 (fun a _ => Outcome.failure a.name "") =
      Except.error "Source directory does not exist" :=
  structural_failure ⟨false, []⟩ "/mnt/dest" 2 (fun a _ => Outcome.failure a.name "") rfl

theorem string_data_append (s t : String) : (s ++ t).data = s.data ++ t.data := rfl

theorem str_append_cancel (p a b : String) (h : p ++ a = p ++ b) : a = b := by
  have hd : p.data ++ a.data = p.data ++ b.data := by
    rw [← string_data_append, ← string_data_append, h]
  have h2 : a.data = b.data := List.append_cancel_left hd
  cases a with
  | mk la =>
    cases b with
    | mk lb =>
      simp only at h2
      rw [h2]

/-- C8 counterexample: `a.tgz` and `a.tar` are distinct supported
archives, yet `path.parse(name).name` strips only the last extension, so
both are assigned the same destination subdirectory — distinct archives
do not always get distinct destination subdirectories. -/
theorem dest_collision_cex :
    isSupportedArchive "a.tgz" = true ∧ isSupportedArchive "a.tar" = true ∧
    ("a.tgz" : String) ≠ "a.tar" ∧
    destSubdir "dest" "a.tgz" = destSubdir "dest" "a.tar" := by
  refine ⟨rfl, rfl, by decide, rfl⟩

/-- C8 (amended): archive discovery accepts exactly the regular files
whose lowercased `path.extname` extension is one of `tgz`, `tar.gz`,
`tar`, `gz` (or whose name ends in `.tar.gz`); every accepted archive is
extracted into a destination subdirectory named after the archive's
filename stem with the last extension stripped (`a.tgz` into `dest/a`,
`b.tar` into `dest/b`); archives with distinct stems get distinct
destination subdirectories, but archives sharing a stem (such as `a.tgz`
and `a.tar`) collide in the same subdirectory. -/
theorem archive_discovery_dest :
    (∀ f, isSupportedArchive f = true ↔
       (toLowerStr (extname f) = ".tgz" ∨ toLowerStr (extname f) = ".tar.gz" ∨
        toLowerStr (extname f) = ".tar" ∨ toLowerStr (extname f) = ".gz" ∨
        endsWithStr f ".tar.gz" = true)) ∧
    (∀ src : SourceDir, src.dirExists = true →
       ∃ files, findArchiveFiles src = Except.ok files ∧
         ∀ a, a ∈ files ↔ ∃ e ∈ src.entries,
           e.isFile = true ∧ isSupportedArchive e.name = true ∧ a = ⟨e.name, e.size⟩) ∧
    (parseName "a.tgz" = "a" ∧ parseName "b.tar" = "b" ∧
     destSubdir "dest" "a.tgz" = "dest/a" ∧ destSubdir "dest" "b.tar" = "dest/b") ∧
    (∀ d x y, parseName x ≠ parseName y → destSubdir d x ≠ destSubdir d y) := by
  refine ⟨?_, ?_, ⟨rfl, rfl, rfl, rfl⟩, ?_⟩
  · intro f
    simp only [isSupportedArchive, Bool.or_eq_true, beq_iff_eq]
    tauto
  · intro src h
    have hok : findArchiveFiles src = Except.ok (src.entries.filterMap fun e =>
        if e.isFile && isSupportedArchive e.name then some ⟨e.name, e.size⟩ else none) := by
      simp [findArchiveFiles, h]
    refine ⟨_, hok, ?_⟩
    intro a
    simp only [List.mem_filterMap]
    constructor
    · rintro ⟨e, he, hfe⟩
      by_cases hc : (e.isFile && isSupportedArchive e.name) = true
      · rw [if_pos hc] at hfe
        obtain ⟨h1, h2⟩ : e.isFile = true ∧ isSupportedArchive e.name = true := by
          simpa using hc
        exact ⟨e, he, h1, h2, (Option.some.injEq _ _ ▸ hfe).symm⟩
      · rw [if_neg hc] at hfe
        cases hfe
    · rintro ⟨e, he, h1, h2, rfl⟩
      exact ⟨e, he, by rw [if_pos (by simp [h1, h2])]⟩
  · intro d x y hne heq
    exact hne (str_append_cancel (d ++ "/") _ _ heq)

/-- Instantiation of the amended discovery theorem: distinct stems give
distinct destination subdirectories. -/
theorem archive_discovery_dest_witness :
    destSubdir "dest" "a.tgz" ≠ destSubdir "dest" "b.tgz" :=
  archive_discovery_dest.2.2.2 "dest" "a.tgz" "b.tgz" (by decide)

/-- A filesystem node under the extraction destination, as visited by
`getDirectoryStats`: a regular file with its size and whether `fs.stat`
on it succeeds, or a subdirectory with whether `fs.readdir` on it
succeeds and its entries. -/
inductive FsEntry where
  | file (size : Nat) (statOk : Bool)
  | dir (readOk : Bool) (entries : List FsEntry)
deriving Repr

/-- The entry loop of `ArchiveExtractor.getDirectoryStats`
(`extract-only.js:58-83`).  `totalSize` and `fileCount` accumulate across
the loop; a failing `fs.stat` raises into the surrounding catch, which
returns the totals accumulated so far (entries after the failing one are
skipped); recursion into a subdirectory catches its own errors and never
aborts the outer loop.  Returns `(totalSize, fileCount)`. -/
def statsLoop : List FsEntry → Nat × Nat
  | [] => (0, 0)
  | FsEntry.file sz true :: rest =>
    let r := statsLoop rest
    (sz + r.1, 1 + r.2)
  | FsEntry.file _ false :: _ => (0, 0)
  | FsEntry.dir ok es :: rest =>
    let sub := if ok then statsLoop es else (0, 0)
    let r := statsLoop rest
    (sub.1 + r.1, sub.2 + r.2)

/-- `ArchiveExtractor.getDirectoryStats` on a directory: a failing
top-level `fs.readdir` is caught and yields `(0, 0)`; otherwise the entry
loop runs.  Total by construction: every error inside the walk is caught
inside the walk. -/
def getDirectoryStats (readOk : Bool) (entries : List FsEntry) : Nat × Nat :=
  if readOk then statsLoop entries else (0, 0)

/-- No top-level `fs.stat` failure in this entry list (failures inside
subdirectories are allowed: they are caught one level down). -/
def noStatFailure : List FsEntry → Bool
  | [] => true
  | FsEntry.file _ ok :: rest => ok && noStatFailure rest
  | FsEntry.dir _ _ :: rest => noStatFailure rest

theorem statsLoop_append (l1 l2 : List FsEntry) (h : noStatFailure l1 = true) :
    statsLoop (l1 ++ l2) =
      ((statsLoop l1).1 + (statsLoop l2).1, (statsLoop l1).2 + (statsLoop l2).2) := by
  induction l1 with
  | nil => simp [statsLoop]
  | cons e rest ih =>
    match e with
    | FsEntry.file sz ok =>
      match ok with
      | true =>
        simp only [noStatFailure, Bool.true_and] at h
        simp only [List.cons_append, statsLoop, ih h]
        simp [Nat.add_assoc]
      | false => simp [noStatFailure] at h
    | FsEntry.dir ok es =>
      simp only [noStatFailure] at h
      simp only [List.cons_append, statsLoop, ih h]
      simp [Nat.add_assoc]

/-- Result of the retried extraction of one archive. -/
inductive ExtractOutcome where
  | success (extractedFiles : Nat) (extractedSize : Nat)
  | failure (errorMessage : String)
deriving DecidableEq, Repr

/-- Environment of one attempt of `ArchiveExtractor.extractTgzFile`
(`extract-only.js:85-123`): whether `fs.ensureDir` succeeds, whether
`tar.extract` succeeds, the state of the destination directory seen by
the post-extraction walk, and whether `fs.remove` of the source archive
succeeds (relevant only when the delete flag is set). -/
structure ExtractAttemptEnv where
  ensureDirOk : Bool
  tarOk : Bool
  destReadOk : Bool
  destEntries : List FsEntry
  removeOk : Bool

/-- One attempt body of `extractTgzFile`: ensure the destination
directory, unpack the archive, walk the destination with
`getDirectoryStats` (which never throws), then delete the source file if
`this.deleteAfterUnzip` is set.  Returns the stats together with whether
the source file was deleted during this attempt; a raised error is caught
by the retry wrapper, and a failed `fs.remove` leaves the file present. -/
def runExtractAttempt (deleteAfterUnzip : Bool) (a : ExtractAttemptEnv) :
    Except String ((Nat × Nat) × Bool) :=
  if a.ensureDirOk then
    if a.tarOk then
      let st := getDirectoryStats a.destReadOk a.destEntries
      if deleteAfterUnzip then
        if a.removeOk then Except.ok (st, true)
        else Except.error "remove failed"
      else Except.ok (st, false)
    else Except.error "tar extract failed"
  else Except.error "ensureDir failed"

/-- `ArchiveExtractor.extractTgzFile` with its retry wrapper
(`extract-only.js:85-136`): on a caught error, retry while
`attempt < retryAttempts`, else return the failure result.  Returns the
outcome, whether the source archive was deleted by any attempt, and the
number of attempts executed. -/
def extractTgzFile (R : Nat) (deleteAfterUnzip : Bool) (env : Nat → ExtractAttemptEnv)
    (attempt : Nat) : ExtractOutcome × Bool × Nat :=
  match runExtractAttempt deleteAfterUnzip (env attempt) with
  | .ok (st, del) => (.success st.2 st.1, del, 1)
  | .error e =>
    if attempt < R then
      let r := extractTgzFile R deleteAfterUnzip env (attempt + 1)
      (r.1, r.2.1, r.2.2 + 1)
    else (.failure e, false, 1)
termination_by R + 1 - attempt
decreasing_by omega

theorem runExtractAttempt_deleted (flag : Bool) (a : ExtractAttemptEnv)
    (st : Nat × Nat) (h : runExtractAttempt flag a = Except.ok (st, true)) :
    flag = true ∧ a.ensureDirOk = true ∧ a.tarOk = true ∧ a.removeOk = true := by
  rw [runExtractAttempt] at h
  by_cases h1 : a.ensureDirOk = true
  · rw [if_pos h1] at h
    by_cases h2 : a.tarOk = true
    · rw [if_pos h2] at h
      by_cases h3 : flag = true
      · rw [if_pos h3] at h
        by_cases h4 : a.removeOk = true
        · exact ⟨h3, h1, h2, h4⟩
        · rw [if_neg h4] at h
          cases h
      · rw [if_neg h3] at h
        cases h
    · rw [if_neg h2] at h
      cases h
  · rw [if_neg h1] at h
    cases h

/-- C9: the source archive is deleted only when the delete-after-extract
flag is set and the attempt's directory creation and unpack completed
without error (the post-extraction walk is total and never errors out of
the attempt); and a run ending in a `Failure` outcome — every attempt
having failed — never deleted the source archive. -/
theorem extract_delete_frame (R : Nat) (flag : Bool) (env : Nat → ExtractAttemptEnv) (a : Nat) :
    ((extractTgzFile R flag env a).2.1 = true →
       flag = true ∧ ∃ n, a ≤ n ∧ (env n).ensureDirOk = true ∧ (env n).tarOk = true ∧
         (env n).removeOk = true) ∧
    (∀ e, (extractTgzFile R flag env a).1 = ExtractOutcome.failure e →
       (extractTgzFile R flag env a).2.1 = false) := by
  have hmain : ∀ (m a : Nat), R + 1 - a ≤ m →
      ((extractTgzFile R flag env a).2.1 = true →
         flag = true ∧ ∃ n, a ≤ n ∧ (env n).ensureDirOk = true ∧ (env n).tarOk = true ∧
           (env n).removeOk = true) ∧
      (∀ e, (extractTgzFile R flag env a).1 = ExtractOutcome.failure e →
         (extractTgzFile R flag env a).2.1 = false) := by
    intro m
    induction m with
    | zero =>
      intro a hm
      have haR : ¬ a < R := by omega
      cases hr : runExtractAttempt flag (env a) with
      | ok v =>
        obtain ⟨st, del⟩ := v
        rw [extractTgzFile, hr]
        constructor
        · intro hdel
          obtain ⟨h1, h2, h3, h4⟩ := runExtractAttempt_deleted flag (env a) st (hdel ▸ hr)
          exact ⟨h1, a, le_rfl, h2, h3, h4⟩
        · intro e he
          cases he
      | error e =>
        rw [extractTgzFile, hr]
        simp only [haR, if_neg]
        constructor
        · intro h
          cases h
        · intro e' _
          rfl
    | succ m ih =>
      intro a hm
      cases hr : runExtractAttempt flag (env a) with
      | ok v =>
        obtain ⟨st, del⟩ := v
        rw [extractTgzFile, hr]
        constructor
        · intro hdel
          obtain ⟨h1, h2, h3, h4⟩ := runExtractAttempt_deleted flag (env a) st (hdel ▸ hr)
          exact ⟨h1, a, le_rfl, h2, h3, h4⟩
        · intro e he
          cases he
      | error e =>
        rw [extractTgzFile, hr]
        by_cases haR : a < R
        · simp only [haR, if_pos]
          obtain ⟨ih1, ih2⟩ := ih (a + 1) (by omega)
          constructor
          · intro hdel
            obtain ⟨hf, n, hn, hrest⟩ := ih1 hdel
            exact ⟨hf, n, by omega, hrest⟩
          · intro e' he'
            exact ih2 e' he'
        · simp only [haR, if_neg]
          constructor
          · intro h
            cases h
          · intro e' _
            rfl
  exact hmain (R + 1 - a) a le_rfl

/-- Environment for the delete-frame witness: `tar.extract` fails on
every attempt. -/
def failTarEnv : Nat → ExtractAttemptEnv :=
  fun _ => ⟨true, false, true, [], true⟩

/-- Instantiation of the delete-frame theorem: a run whose two attempts
both fail to unpack returns a failure and leaves the source in place. -/
theorem extract_delete_frame_witness :
    (extractTgzFile 2 true failTarEnv 1).2.1 = false :=
  (extract_delete_frame 2 true failTarEnv 1).2 "tar extract failed"
    (by simp [extractTgzFile, runExtractAttempt, failTarEnv])

/-- C10: a read error during the post-extraction walk is caught inside
the walk: when the attempt's directory creation and unpack succeed (and
the delete step, when enabled, succeeds), the extraction returns a
`Success` outcome carrying exactly the walk's partial file count and byte
size, in a single attempt — walk errors never produce a `Failure`
outcome and never trigger a retry.  A failing top-level `readdir` yields
the partial count `(0, 0)`, and a failing `stat` mid-listing yields the
totals accumulated before it. -/
theorem walk_error_caught (R : Nat) (flag : Bool) (env : Nat → ExtractAttemptEnv) (a : Nat)
    (h1 : (env a).ensureDirOk = true) (h2 : (env a).tarOk = true)
    (h3 : flag = true → (env a).removeOk = true) :
    (extractTgzFile R flag env a).1 =
      ExtractOutcome.success (getDirectoryStats (env a).destReadOk (env a).destEntries).2
        (getDirectoryStats (env a).destReadOk (env a).destEntries).1 ∧
    (extractTgzFile R flag env a).2.2 = 1 ∧
    (∀ es : List FsEntry, getDirectoryStats false es = (0, 0)) ∧
    (∀ (pre rest : List FsEntry) (sz : Nat), noStatFailure pre = true →
      statsLoop (pre ++ FsEntry.file sz false :: rest) = statsLoop pre) := by
  obtain ⟨del, hrun⟩ : ∃ del, runExtractAttempt flag (env a) =
      Except.ok (getDirectoryStats (env a).destReadOk (env a).destEntries, del) := by
    cases hf : flag with
    | false => exact ⟨false, by simp [runExtractAttempt, h1, h2]⟩
    | true => exact ⟨true, by simp [runExtractAttempt, h1, h2, h3 hf]⟩
  rw [extractTgzFile, hrun]
  refine ⟨rfl, rfl, fun es => rfl, ?_⟩
  intro pre rest sz hpre
  rw [statsLoop_append pre (FsEntry.file sz false :: rest) hpre]
  simp [statsLoop]

/-- Environment for the walk-error witness: the unpack succeeds but the
walk hits a failing `stat` after one good file. -/
def walkFailEnv : Nat → ExtractAttemptEnv :=
  fun _ => ⟨true, true, true, [FsEntry.file 7 true, FsEntry.file 3 false, FsEntry.file 9 true], false⟩

/-- Instantiation of the walk-error theorem: despite the failing walk the
outcome is a success carrying the partial stats. -/
theorem walk_error_caught_witness :
    (extractTgzFile 3 false walkFailEnv 1).1 =
      ExtractOutcome.success
        (getDirectoryStats (walkFailEnv 1).destReadOk (walkFailEnv 1).destEntries).2
        (getDirectoryStats (walkFailEnv 1).destReadOk (walkFailEnv 1).destEntries).1 :=
  (walk_error_caught 3 false walkFailEnv 1 rfl rfl (fun h => nomatch h)).1
